import Mathlib

/-!
Verification development for the legislative-analysis pipeline
(workflow orchestrator, knowledge-base merge engine, validation engine).

The Python sources are shallowly embedded: pure fragments become Lean
functions over `List Char` / `String`; the regular-expression subset the
code uses (literals, character classes, `\s`, `\d`, `\b`, `.`,
alternation, `*`, `+`, `?`, lookahead) is given an executable backtracking
semantics with explicit fuel; external collaborators (the text-generation
service, the web fetcher) are parameters of the embedded functions.
-/

namespace Leg

/-- Whitespace characters recognised by Python's `\s` on the ASCII range
(the embedded texts contain no other whitespace). -/
def pyIsSpace (c : Char) : Bool :=
  c = ' ' || c = '\t' || c = '\n' || c = '\r' || c = '\x0b' || c = '\x0c'

/-- Accented letters occurring in the program's pattern tables and data;
they are word characters for Python's Unicode-aware `\b`. -/
def accentedChars : List Char :=
  ['á', 'à', 'â', 'ã', 'ä', 'é', 'è', 'ê', 'í', 'î', 'ó', 'ô', 'õ', 'ö',
   'ú', 'ü', 'ç', 'Á', 'À', 'Â', 'Ã', 'Ä', 'É', 'È', 'Ê', 'Í', 'Î', 'Ó',
   'Ô', 'Õ', 'Ö', 'Ú', 'Ü', 'Ç', 'º', 'ª']

/-- Word characters for `\b` (Python `\w` restricted to the alphabet the
program manipulates: ASCII alphanumerics, underscore and the accented
letters above). -/
def isWordChar (c : Char) : Bool :=
  c.isAlphanum || c = '_' || accentedChars.contains c

/-- Lower-casing of one character, covering ASCII and the accented capitals
the program's data can contain (embeds Python `str.lower` on that alphabet). -/
def charLower (c : Char) : Char :=
  if 'A' ≤ c && c ≤ 'Z' then Char.ofNat (c.toNat + 32)
  else match c with
  | 'Á' => 'á' | 'À' => 'à' | 'Â' => 'â' | 'Ã' => 'ã' | 'Ä' => 'ä'
  | 'É' => 'é' | 'È' => 'è' | 'Ê' => 'ê' | 'Í' => 'í' | 'Î' => 'î'
  | 'Ó' => 'ó' | 'Ô' => 'ô' | 'Õ' => 'õ' | 'Ö' => 'ö'
  | 'Ú' => 'ú' | 'Ü' => 'ü' | 'Ç' => 'ç'
  | c => c

/-- Upper-casing of one character (embeds Python `str.upper` on the same
alphabet). -/
def charUpper (c : Char) : Char :=
  if 'a' ≤ c && c ≤ 'z' then Char.ofNat (c.toNat - 32)
  else match c with
  | 'á' => 'Á' | 'à' => 'À' | 'â' => 'Â' | 'ã' => 'Ã' | 'ä' => 'Ä'
  | 'é' => 'É' | 'è' => 'È' | 'ê' => 'Ê' | 'í' => 'Í' | 'î' => 'Î'
  | 'ó' => 'Ó' | 'ô' => 'Ô' | 'õ' => 'Õ' | 'ö' => 'Ö'
  | 'ú' => 'Ú' | 'ü' => 'Ü' | 'ç' => 'Ç'
  | c => c

def lowerL (s : List Char) : List Char := s.map charLower

def upperL (s : List Char) : List Char := s.map charUpper

/-- `startsWithL p s` : `p` is an initial segment of `s`. -/
def startsWithL : List Char → List Char → Bool
  | [], _ => true
  | _ :: _, [] => false
  | p :: ps, c :: cs => p = c && startsWithL ps cs

/-- Python's `pat in s` substring test. -/
def containsL (s pat : List Char) : Bool :=
  match s with
  | [] => pat.isEmpty
  | _ :: rest => startsWithL pat s || containsL rest pat

/-- Python `str.replace` (all non-overlapping occurrences, left to right). -/
def replaceAux : Nat → List Char → List Char → List Char → List Char
  | 0, s, _, _ => s
  | fuel + 1, s, pat, rep =>
    match s with
    | [] => []
    | c :: rest =>
      if !pat.isEmpty && startsWithL pat s then
        rep ++ replaceAux fuel (s.drop pat.length) pat rep
      else
        c :: replaceAux fuel rest pat rep

def replaceAll (s pat rep : List Char) : List Char :=
  replaceAux (s.length + 1) s pat rep

/-- Python `str.strip()`. -/
def stripL (s : List Char) : List Char :=
  ((s.dropWhile pyIsSpace).reverse.dropWhile pyIsSpace).reverse

/-- Python slice `s[a:b]` for already-clamped `a ≤ b ≤ len`. -/
def sliceL (s : List Char) (a b : Nat) : List Char := (s.take b).drop a

/-! ### A small regular-expression engine

Covers exactly the constructs used by the program's patterns:
literal characters, character classes, `.` (any char but newline),
concatenation, alternation (left-preferred), greedy `*`, word boundary
`\b`, and positive / negative lookahead. -/

inductive RE where
  | eps : RE
  | lit : Char → RE
  | cls : List Char → RE
  | anyc : RE
  | seq : RE → RE → RE
  | alt : RE → RE → RE
  | star : RE → RE
  | wb : RE
  | nlk : RE → RE
  | plk : RE → RE
deriving Repr, DecidableEq

/-- Is position `i` a `\b` word boundary of `s`? -/
def wordBoundaryAt (s : List Char) (i : Nat) : Bool :=
  let before := match s[i - 1]? with
    | some c => i > 0 && isWordChar c
    | none => false
  let after := match s[i]? with
    | some c => isWordChar c
    | none => false
  before != after

/-- End positions of matches of `r` in `s` starting at `i`, in Python's
backtracking preference order (greedy quantifiers first, left alternative
first). `fuel` bounds recursion depth; every use below supplies enough. -/
def matchEnds : Nat → RE → List Char → Nat → List Nat
  | 0, _, _, _ => []
  | fuel + 1, r, s, i =>
    match r with
    | .eps => [i]
    | .lit c =>
      match s[i]? with
      | some d => if d = c then [i + 1] else []
      | none => []
    | .cls cs =>
      match s[i]? with
      | some d => if cs.contains d then [i + 1] else []
      | none => []
    | .anyc =>
      match s[i]? with
      | some d => if d = '\n' then [] else [i + 1]
      | none => []
    | .seq a b =>
      (matchEnds fuel a s i).flatMap (fun j => matchEnds fuel b s j)
    | .alt a b => matchEnds fuel a s i ++ matchEnds fuel b s i
    | .star a =>
      ((matchEnds fuel a s i).flatMap
        (fun j => if j ≤ i then [] else matchEnds fuel (.star a) s j)) ++ [i]
    | .wb => if wordBoundaryAt s i then [i] else []
    | .nlk a => if (matchEnds fuel a s i).isEmpty then [i] else []
    | .plk a => if (matchEnds fuel a s i).isEmpty then [] else [i]

/-- Structural size of a pattern, used to compute sufficient fuel. -/
def reSize : RE → Nat
  | .eps | .lit _ | .cls _ | .anyc | .wb => 1
  | .seq a b | .alt a b => reSize a + reSize b + 1
  | .star a | .nlk a | .plk a => reSize a + 1

def fuelFor (r : RE) (s : List Char) : Nat :=
  (reSize r + 1) * (s.length + 2) + 1

/-- Leftmost-preferred match end at position `i` (Python `re.match` span end). -/
def reMatchEnd (r : RE) (s : List Char) (i : Nat) : Option Nat :=
  (matchEnds (fuelFor r s) r s i).head?

/-- Python `re.search(r, s)` as a Boolean. -/
def reSearch (r : RE) (s : List Char) : Bool :=
  (List.range (s.length + 1)).any (fun i => !(matchEnds (fuelFor r s) r s i).isEmpty)

/-- First match span at-or-after position `i` (fuel counts remaining starts). -/
def reFindFromAux : Nat → RE → List Char → Nat → Option (Nat × Nat)
  | 0, _, _, _ => none
  | fuel + 1, r, s, i =>
    match reMatchEnd r s i with
    | some e => some (i, e)
    | none => reFindFromAux fuel r s (i + 1)

def reFindFrom (r : RE) (s : List Char) (i : Nat) : Option (Nat × Nat) :=
  reFindFromAux (s.length + 1 - i) r s i

/-- Python `re.finditer`: non-overlapping leftmost matches. -/
def reFindIterAux : Nat → RE → List Char → Nat → List (Nat × Nat)
  | 0, _, _, _ => []
  | fuel + 1, r, s, i =>
    match reFindFrom r s i with
    | none => []
    | some (a, b) =>
      (a, b) :: reFindIterAux fuel r s (if a < b then b else b + 1)

def reFindIter (r : RE) (s : List Char) : List (Nat × Nat) :=
  reFindIterAux (s.length + 1) r s 0

/-! Pattern-building helpers. -/

def rstr : List Char → RE
  | [] => .eps
  | [c] => .lit c
  | c :: rest => .seq (.lit c) (rstr rest)

def rs (s : String) : RE := rstr s.data

def rcls (s : String) : RE := .cls s.data

def rseq (l : List RE) : RE :=
  match l with
  | [] => .eps
  | [r] => r
  | r :: rest => .seq r (rseq rest)

def raltL (l : List RE) : RE :=
  match l with
  | [] => .cls []
  | [r] => r
  | r :: rest => .alt r (raltL rest)

def wsCls : RE := .cls [' ', '\t', '\n', '\r', '\x0b', '\x0c']

/-- `\s+` -/
def ws1 : RE := .seq wsCls (.star wsCls)

/-- `\s*` -/
def ws0 : RE := .star wsCls

def ropt (r : RE) : RE := .alt r .eps

def digitCls : RE := .cls "0123456789".data

end Leg

namespace Leg

/-! ### ValidationAgent pattern tables (src/validation_agent.py lines 38-83)

Each Python regex is transcribed constructor-by-constructor; text passed to
them is already lower-cased by `validate`, so `re.IGNORECASE` is inert. -/

/-- `self.change_type_patterns` — an ordered association list (Python dicts
iterate in insertion order, which the scanning loops rely on). -/
def changeTypePatterns : List (String × List RE) :=
  [("SUSPENSÃO",
    [rseq [rs "suspens", rcls "ãa", rs "o"],
     rseq [rs "suspend", rcls "ea"],
     rseq [rs "fica", ws1, rs "suspenso"],
     rseq [rs "pagamento", ws1, rs "suspenso"],
     rseq [rs "com", ws1, rs "suspens", rcls "ãa", rs "o"]]),
   ("ISENÇÃO",
    [rseq [rs "isen", rcls "çc", rcls "ãa", rs "o"],
     rseq [rs "isento", ropt (rcls "s")],
     rseq [rs "fica", ropt (rcls "m"), ws1, rs "isento"],
     rseq [rs "com", ws1, rs "isen", rcls "çc", rcls "ãa", rs "o"]]),
   ("ALÍQUOTA 0%",
    [rseq [rs "al", rcls "íi", rs "quota", ws1, ropt (rseq [rs "de", ws1]),
           raltL [rs "0%", rs "zero"]],
     rseq [rs "0%", ws0, ropt (.lit '('), rs "zero"],
     rseq [rs "zero", ws0, ropt (.lit '('), rs "0%"],
     rseq [rs "reduzid", ropt (.lit 'a'), ws1, rs "a", ws1, rs "zero"],
     rseq [rs "convertid", ropt (.lit 'a'), ws1, rs "em", ws1,
           ropt (rseq [rs "al", rcls "íi", rs "quota", ws1]), rs "zero"]]),
   ("REDUÇÃO",
    [rseq [rs "redu", rcls "çc", rcls "ãa", rs "o"],
     rseq [rs "reduzid", rcls "ao"],
     rseq [rs "reduz", ropt (rs "ir")],
     rseq [rs "al", rcls "íi", rs "quota", ws1, rs "reduzida"]]),
   ("CRÉDITO",
    [rseq [rs "cr", rcls "ée", rs "dito"],
     rseq [rs "direito", ws1, rs "a", ws1, rs "cr", rcls "ée", rs "dito"],
     rs "creditamento"])]

/-- `self.tributo_patterns`. -/
def tributoPatterns : List (String × List RE) :=
  [("PIS",
    [rseq [.wb, rs "pis", .wb],
     rseq [rs "contribui", rcls "çc", rcls "ãa", rs "o", ws1, rs "para",
           ws1, rs "o", ws1, rs "pis"]]),
   ("COFINS",
    [rseq [.wb, rs "cofins", .wb],
     rseq [rs "contribui", rcls "çc", rcls "ãa", rs "o", .star .anyc,
           rs "financiamento", .star .anyc, rs "seguridade"]]),
   ("IPI",
    [rseq [.wb, rs "ipi", .wb],
     rseq [rs "imposto", ws1, rs "sobre", ws1, rs "produtos", ws1,
           rs "industrializados"]]),
   ("ICMS",
    [rseq [.wb, rs "icms", .wb],
     rseq [rs "imposto", ws1, rs "sobre", ws1,
           raltL [rseq [rs "circula", rcls "çc", rcls "ãa", rs "o"],
                  rseq [rs "opera", rcls "çc", rcls "õo", rs "es"]]]]),
   ("ISS",
    [rseq [.wb, rs "iss", .wb],
     rseq [rs "imposto", ws1, rs "sobre", ws1, rs "servi", rcls "çc", rs "os"]]),
   ("II",
    [rseq [rs "imposto", ws1, rs "de", ws1, rs "importa", rcls "çc",
           rcls "ãa", rs "o"],
     rseq [.wb, rs "ii", .wb,
           .nlk (rseq [ws0, ropt (rcls "-,."), ws0,
                       raltL [rs "do", rs "da", rs "de", rs "iii", rs "iv", rs "v"],
                       .wb])]]),
   ("IBS",
    [rseq [.wb, rs "ibs", .wb],
     rseq [rs "imposto", ws1, rs "sobre", ws1, rs "bens", ws1, rs "e", ws1,
           rs "servi", rcls "çc", rs "os"]]),
   ("CBS",
    [rseq [.wb, rs "cbs", .wb],
     rseq [rs "contribui", rcls "çc", rcls "ãa", rs "o", ws1, rs "sobre",
           ws1, rs "bens", ws1, rs "e", ws1, rs "servi", rcls "çc", rs "os"]]),
   ("IS",
    [rseq [rs "imposto", ws1, rs "seletivo"],
     rseq [.wb, rs "is", .wb,
           .plk (rseq [ws1, raltL [rs "incid", rseq [rs "ser", rcls "áa"], rs "sobre"]])]])]

/-- `self.tributo_patterns.get(key, [rf'\b{re.escape(fallback)}\b'])`. -/
def tributoPatternsFor (key : String) (fallbackLower : List Char) : List RE :=
  match (tributoPatterns.find? (fun kp => kp.1 = key)).map (fun kp => kp.2) with
  | some ps => ps
  | none => [rseq [.wb, rstr fallbackLower, .wb]]

/-! ### Data model of the fields the validation engine reads and writes -/

structure Aliquota where
  tributo : String
  tipo_mudanca : String
  situacao_nova : String
  descricao_completa : String
deriving Repr, DecidableEq

structure Vigencia where
  data : String
  contexto : String
  tipo : String
  relevancia : String
deriving Repr, DecidableEq

structure ValidationStatus where
  validated : Bool
  corrections_made : Nat
  errors : List String
  confidence : String
deriving Repr, DecidableEq

/-- One correction record returned by the escalation text-generation call
(`_validate_via_llm`); the call itself is an external collaborator, so its
response is a parameter of the embedded `validateRun`. -/
structure LLMCorrection where
  tributo : String
  tipo_correto : String
deriving Repr, DecidableEq

/-- `ValidationAgent._validate_tributo` (validation_agent.py lines 211-225). -/
def normalizeTributoKey (tributo : String) : String :=
  String.mk (stripL (replaceAll (replaceAll (upperL tributo.data)
    "CONTRIBUIÇÃO PARA O ".data []) "CONTRIBUIÇÃO PARA A ".data []))

def validateTributo (tributo : String) (originalLower : List Char) : Bool :=
  let key := normalizeTributoKey tributo
  let pats := tributoPatternsFor key (lowerL tributo.data)
  pats.any (fun p => reSearch p originalLower)

/-- `ValidationAgent._find_tributo_contexts` (window = 300 characters). -/
def findTributoContexts (tributoL : List Char) (text : List Char) : List (List Char) :=
  let pats := tributoPatternsFor (String.mk (upperL tributoL)) tributoL
  pats.flatMap (fun p =>
    (reFindIter p text).map (fun ab =>
      sliceL text (ab.1 - 300) (min (ab.2 + 300) text.length)))

/-- `ValidationAgent._get_situacao_nova`. -/
def getSituacaoNova (tipoCorreto tributo : String) : String :=
  if tipoCorreto = "SUSPENSÃO" then
    "Suspensão do pagamento do " ++ tributo ++ " conforme condições da legislação."
  else if tipoCorreto = "SUSPENSÃO → ALÍQUOTA 0%" then
    "Suspensão do " ++ tributo ++ " que converte em alíquota zero após cumprimento dos requisitos."
  else if tipoCorreto = "ISENÇÃO" then
    "Isenção do " ++ tributo ++ " para operações específicas conforme condições da legislação."
  else if tipoCorreto = "ALÍQUOTA 0%" then
    "Alíquota zero do " ++ tributo ++ " para operações específicas."
  else if tipoCorreto = "REDUÇÃO" then
    "Redução da alíquota do " ++ tributo ++ " conforme legislação."
  else if tipoCorreto = "CRÉDITO" then
    "Direito a crédito do " ++ tributo ++ " conforme condições estabelecidas."
  else
    "Alteração no " ++ tributo ++ " conforme legislação."

/-- Composite-type test of `_validate_change_type`: `"SUSPENSÃO" in tipo_upper
and ("0%" in tipo_upper or "ZERO" in tipo_upper)`. -/
def compositeTipo (tipoUpper : List Char) : Bool :=
  containsL tipoUpper "SUSPENSÃO".data &&
    (containsL tipoUpper "0%".data || containsL tipoUpper "ZERO".data)

/-- The first `change_type_patterns` key that is a substring of the
(upper-cased) extracted type. -/
def findTipoToCheck (tipoUpper : List Char) : Option String :=
  (changeTypePatterns.find? (fun kp => containsL tipoUpper kp.1.data)).map
    (fun kp => kp.1)

/-- `(tipo_to_check, secondary_check)` resolution of `_validate_change_type`. -/
def tipoResolution (tipoMudanca : String) : Option String × Option String :=
  let tipoUpper := upperL tipoMudanca.data
  if compositeTipo tipoUpper then (some "SUSPENSÃO", some "ALÍQUOTA 0%")
  else (findTipoToCheck tipoUpper, none)

/-- First change type whose pattern set matches inside one context. -/
def findTipoInContext (ctx : List Char) : Option String :=
  (changeTypePatterns.find? (fun kp => kp.2.any (fun p => reSearch p ctx))).map
    (fun kp => kp.1)

/-- Scans the context windows in order; first hit wins. -/
def scanContexts : List (List Char) → Option String
  | [] => none
  | c :: rest =>
    match findTipoInContext c with
    | some t => some t
    | none => scanContexts rest

/-- The `tributo.lower().replace(...)` normalisation inside
`_validate_change_type`. -/
def tributoLowerName (tributo : String) : List Char :=
  replaceAll (replaceAll (lowerL tributo.data)
    "contribuição para o ".data []) "contribuição para a ".data []

/-- The list of context windows actually scanned (whole text when the
tributo is nowhere mentioned). -/
def effectiveContexts (tributo : String) (originalLower : List Char) : List (List Char) :=
  let cs := findTributoContexts (tributoLowerName tributo) originalLower
  if cs.isEmpty then [originalLower] else cs

/-- `ValidationAgent._validate_change_type` (lines 227-288). -/
def validateChangeType (tributo tipoMudanca : String) (originalLower : List Char) :
    Bool × Option String :=
  match tipoResolution tipoMudanca with
  | (none, _) => (false, none)
  | (some tc, secondary) =>
    match scanContexts (effectiveContexts tributo originalLower) with
    | some found =>
      if tc = found then (true, some found)
      else if secondary = some found then (true, some (tc ++ " → " ++ found))
      else (false, some found)
    | none => (false, none)

def errNotFound (tributo : String) : String :=
  "⚠️ " ++ tributo ++ ": não encontrado no texto original"

def errTipoNotConfirmed (tributo tipoMudanca : String) : String :=
  "❌ " ++ tributo ++ ": tipo '" ++ tipoMudanca ++ "' não confirmado no texto"

/-- Step 1 of `validate` for one record: returns the (possibly corrected)
record, the corrections counted for it, and the errors raised for it. -/
def processAliq (textL : List Char) (a : Aliquota) : Aliquota × Nat × List String :=
  if validateTributo a.tributo textL = false then
    (a, 0, [errNotFound a.tributo])
  else
    match validateChangeType a.tributo a.tipo_mudanca textL with
    | (true, _) => (a, 0, [])
    | (false, some tipoCorreto) =>
      ({ a with
          tipo_mudanca := tipoCorreto,
          descricao_completa := a.tributo ++ ": " ++ tipoCorreto,
          situacao_nova := getSituacaoNova tipoCorreto a.tributo }, 1, [])
    | (false, none) => (a, 0, [errTipoNotConfirmed a.tributo a.tipo_mudanca])

/-- The whole per-record loop of `validate` (lines 110-143). -/
def validateStep1 (textL : List Char) : List Aliquota → List Aliquota × Nat × List String
  | [] => ([], 0, [])
  | a :: rest =>
    let r := processAliq textL a
    let rr := validateStep1 textL rest
    (r.1 :: rr.1, r.2.1 + rr.2.1, r.2.2 ++ rr.2.2)

/-- Applying one LLM correction: every record with matching `tributo` is
rewritten and counted (the Python inner loop has no `break`). -/
def applyLLMCorrection (c : LLMCorrection) : List Aliquota → List Aliquota × Nat
  | [] => ([], 0)
  | a :: rest =>
    let rr := applyLLMCorrection c rest
    if a.tributo = c.tributo then
      ({ a with
          tipo_mudanca := c.tipo_correto,
          descricao_completa := c.tributo ++ ": " ++ c.tipo_correto,
          situacao_nova := getSituacaoNova c.tipo_correto c.tributo } :: rr.1,
       rr.2 + 1)
    else (a :: rr.1, rr.2)

def applyLLMCorrections (cs : List LLMCorrection) (l : List Aliquota) :
    List Aliquota × Nat :=
  match cs with
  | [] => (l, 0)
  | c :: rest =>
    let r := applyLLMCorrection c l
    let rr := applyLLMCorrections rest r.1
    (rr.1, r.2 + rr.2)

/-- Right-nested concatenation of a list of patterns, ending in `eps`
(the normal form used for character-by-character pattern compilation). -/
def chainA : List RE → RE
  | [] => .eps
  | r :: rest => .seq r (chainA rest)

/-- Compilation of a `data` value into the regex Python builds by replacing
each `/` with the two-character class hyphen-or-slash; `.` is the wildcard,
every other character of the values handled here is literal. -/
def compileDataCh (c : Char) : RE :=
  if c = '/' then .cls ['-', '/'] else if c = '.' then .anyc else .lit c

def compileData (d : List Char) : RE := chainA (d.map compileDataCh)

/-- The `\b`-delimited escaped-literal pattern
`r'\b' + re.escape(data) + r'\b'`. -/
def escapedWbRE (d : List Char) : RE :=
  .seq .wb (.seq (chainA (d.map RE.lit)) .wb)

/-- `re.search(r'20\d{2}', data)` — the year pattern. -/
def yearRE : RE := chainA [.lit '2', .lit '0', digitCls, digitCls]

/-- The first `20\d{2}` match inside `data`, as a string. -/
def yearOf (d : List Char) : Option (List Char) :=
  match reFindFrom yearRE d 0 with
  | some ab => some (sliceL d ab.1 ab.2)
  | none => none

/-- Keep-test of `_validate_vigencias` for one entry (lines 400-427). -/
def keepVig (textL : List Char) (v : Vigencia) : Bool :=
  let d := v.data.data
  if containsL (lowerL d) "ano".data then true
  else if reSearch (compileData d) textL ||
          reSearch (escapedWbRE d) textL then true
  else
    match yearOf d with
    | some y => containsL textL y
    | none => false

/-- `ValidationAgent._validate_vigencias`. -/
def validateVigencias (vigs : List Vigencia) (textL : List Char) : List Vigencia :=
  vigs.filter (keepVig textL)

structure ValidateResult where
  aliquotas : List Aliquota
  vigencias : List Vigencia
  status : Option ValidationStatus
deriving Repr, DecidableEq

/-- Step 2 of `validate`: the escalation call is made only when there are
unresolved errors and at most 3 of them; its returned corrections are then
applied (validation_agent.py lines 145-165). -/
def validatePost (llm : List LLMCorrection) (al1 : List Aliquota)
    (errs : List String) : List Aliquota × Nat :=
  if errs.isEmpty then (al1, 0)
  else if errs.length ≤ 3 then applyLLMCorrections llm al1
  else (al1, 0)

/-- `ValidationAgent.validate` (lines 85-192). `originalText` is the text
selected by `_get_original_text`; `llm` is the response of the escalation
text-generation call, an external collaborator consulted only when
`0 < |errors| ≤ 3`. When no original text is available the method returns
the state untouched, writing no `validation_status`. -/
def validateRun (llm : List LLMCorrection) (originalText : String)
    (aliqs : List Aliquota) (vigs : List Vigencia) : ValidateResult :=
  if originalText = "" then
    { aliquotas := aliqs, vigencias := vigs, status := none }
  else
    let textL := lowerL originalText.data
    let r1 := validateStep1 textL aliqs
    let al1 := r1.1
    let corr1 := r1.2.1
    let errs := r1.2.2
    let r2 := validatePost llm al1 errs
    { aliquotas := r2.1,
      vigencias := validateVigencias vigs textL,
      status := some {
        validated := true,
        corrections_made := corr1 + r2.2,
        errors := errs,
        confidence := if errs.isEmpty then "alta" else "media" } }

/-- `ValidationAgent._get_original_text`: the longest of the candidate
sources (Python `max(sources, key=len)` keeps the first maximum). -/
def getOriginalText (rawText structuredRawText : String)
    (webContents : List String) : String :=
  let sources := rawText :: structuredRawText ::
    (webContents.filter (fun c => c ≠ ""))
  match sources with
  | [] => ""
  | s :: rest => rest.foldl (fun best c => if c.length > best.length then c else best) s

end Leg

namespace Leg

/-! ### Knowledge base (src/reform_knowledge_base.py)

The curated records, projected onto the fields the merge engine and the
validation engine read. `MPV_1318_DATA` carries no `vigencias` and no
`system_changes` entry, so lookups for that key yield the empty list, as
`dict.get(key, {}).get(field, [])` does. -/

def lc214Vigencias : List Vigencia :=
  [{ data := "16/01/2025",
     contexto := "Publicação e início da vigência da Lei Complementar nº 214",
     tipo := "inicio_vigencia", relevancia := "alta" },
   { data := "2026",
     contexto := "Início do período de teste - CBS 0,9% + IBS 0,1%",
     tipo := "inicio_vigencia", relevancia := "alta" },
   { data := "2027",
     contexto := "CBS entra em vigor com alíquota cheia (~8,8%); IS (Imposto Seletivo) entra em vigor",
     tipo := "inicio_vigencia", relevancia := "alta" },
   { data := "2029-2032",
     contexto := "Período de transição gradual - redução progressiva de PIS/COFINS/ICMS/ISS",
     tipo := "prazo_transicao", relevancia := "alta" },
   { data := "31/12/2032",
     contexto := "Último ano de coexistência dos sistemas tributários",
     tipo := "prazo_final", relevancia := "alta" },
   { data := "01/01/2033",
     contexto := "Extinção total de PIS, COFINS, ICMS e ISS - IBS e CBS em vigor pleno",
     tipo := "prazo_final", relevancia := "alta" }]

def lc214SystemChanges : List Aliquota :=
  [{ tributo := "IBS", tipo_mudanca := "NOVO TRIBUTO",
     situacao_nova := "Novo tributo unificado estadual/municipal com alíquota de referência de 17,7%. Substitui gradualmente ICMS e ISS até 2033.",
     descricao_completa := "IBS: NOVO TRIBUTO (substitui ICMS+ISS)" },
   { tributo := "CBS", tipo_mudanca := "NOVO TRIBUTO",
     situacao_nova := "Nova contribuição federal com alíquota de referência de 8,8%. Substitui gradualmente PIS e COFINS até 2033. Crédito amplo (inclusive serviços).",
     descricao_completa := "CBS: NOVO TRIBUTO (substitui PIS+COFINS)" },
   { tributo := "IS", tipo_mudanca := "NOVO TRIBUTO",
     situacao_nova := "Imposto Seletivo incidente sobre produtos prejudiciais à saúde ou meio ambiente. Alíquotas variáveis por produto.",
     descricao_completa := "IS: NOVO TRIBUTO (Imposto Seletivo)" }]

/-- `get_vigencias_for_legislation`. -/
def kbVigencias (key : String) : List Vigencia :=
  if key = "LC_214" then lc214Vigencias else []

/-- `get_system_changes_for_legislation`. -/
def kbSystemChanges (key : String) : List Aliquota :=
  if key = "LC_214" then lc214SystemChanges else []

/-- The "manual-review-needed" sentinel `tributo` value. -/
def sentinelTributo : String := "Análise detalhada necessária"

/-- The sufficiency test for extracted tax changes, shared by
`merge_with_extracted_data` and the system-changes fallback:
non-empty and first record's `tributo` different from the sentinel. -/
def hasValidChanges (ec : List Aliquota) : Bool :=
  match ec with
  | [] => false
  | a :: _ => a.tributo ≠ sentinelTributo

/-- `merge_with_extracted_data` (reform_knowledge_base.py lines 328-366). -/
def merge_with_extracted_data (extractedVigencias : List Vigencia)
    (extractedChanges : List Aliquota) (knownLegislationKey : String) :
    List Vigencia × List Aliquota :=
  let kbV := kbVigencias knownLegislationKey
  let kbC := kbSystemChanges knownLegislationKey
  let vigenciasMerged :=
    if extractedVigencias.isEmpty || extractedVigencias.length < 3 then kbV
    else extractedVigencias
  let changesMerged :=
    if hasValidChanges extractedChanges then extractedChanges else kbC
  (vigenciasMerged, changesMerged)

/-- The knowledge-base fallback step of `SystemChangesAgent.identify_changes`
(system_changes_agent.py lines 95-108): substitution happens only when a
key is known, the extracted list is invalid, AND the knowledge-base list
for the key is non-empty. -/
def applyKbFallback (aliquotas : List Aliquota) (knownLawKey : Option String) :
    List Aliquota :=
  match knownLawKey with
  | none => aliquotas
  | some key =>
    if hasValidChanges aliquotas then aliquotas
    else
      let kbChanges := kbSystemChanges key
      if kbChanges.isEmpty then aliquotas else kbChanges

/-! ### Pipeline orchestrator (src/workflow.py, `_build_workflow`) -/

inductive Node where
  | input | search | detectType | rawExtract | extractDates | extractNumbers
  | validate | enhance | analyzeImpact | systemChanges | validationCheck
  | dellRelevance | review | assemble
deriving Repr, DecidableEq

/-- The edge map of the compiled LangGraph: all edges are unconditional
except the one out of `validate`, which branches on
`validation_results["needs_enhancement"]`. -/
def nextNode (needsEnhancement : Bool) : Node → Option Node
  | .input => some .search
  | .search => some .detectType
  | .detectType => some .rawExtract
  | .rawExtract => some .extractDates
  | .extractDates => some .extractNumbers
  | .extractNumbers => some .validate
  | .validate => some (if needsEnhancement then .enhance else .analyzeImpact)
  | .enhance => some .analyzeImpact
  | .analyzeImpact => some .systemChanges
  | .systemChanges => some .validationCheck
  | .validationCheck => some .dellRelevance
  | .dellRelevance => some .review
  | .review => some .assemble
  | .assemble => none

def traceFrom (needsEnhancement : Bool) : Nat → Node → List Node
  | 0, n => [n]
  | fuel + 1, n =>
    n :: (match nextNode needsEnhancement n with
          | none => []
          | some m => traceFrom needsEnhancement fuel m)

/-- The ordered list of stages one run executes, as a function of the single
branch condition. -/
def pipelineTrace (needsEnhancement : Bool) : List Node :=
  traceFrom needsEnhancement 20 Node.input

/-- `StructureValidationAgent.process` sets
`needs_enhancement = score < 0.70` (legal_analysis_agent.py line 256). -/
def needsEnhancementOf (score : ℚ) : Bool := decide (score < 7 / 10)

/-- `StructureValidationAgent._calculate_completeness`: mean of a text-length
score and two presence scores. -/
def calculateCompleteness (rawTextLen : Nat) (hasVig hasPct : Bool) : ℚ :=
  ((if rawTextLen > 0 then min 1 ((rawTextLen : ℚ) / 1000) else 0) +
   (if hasVig then 1 else 3 / 10) +
   (if hasPct then 1 else 3 / 10)) / 3

/-- `LegislacaoWorkflow.detect_type` (workflow.py lines 166-196): the
legislation type assigned, and the knowledge-base key detected, as a
function of the fetched results. `identifyType` and `detectKnown` stand for
`WebSearchAgent.identify_legislation_type` and
`detect_known_legislation`. -/
def detectTypeFields (webContents : List (String × String × String))
    (identifyType : String → String → String)
    (detectKnown : String → String → String → Option String) :
    String × Option String :=
  match webContents with
  | [] => ("default", none)
  | (url, title, content) :: _ =>
    let legType := if content ≠ "" then identifyType content url else "default"
    (legType, detectKnown url content title)

/-! ### Date extraction (src/date_extraction_agent.py, `extract`) -/

structure DateExtractionOut where
  dates_text : String
  vigencias : List Vigencia
  count : Nat
  known_law_key : Option String
deriving Repr, DecidableEq

/-- Duplicate removal by `data`, keeping first occurrences (the `seen` set
comprehension in `extract`). -/
def dedupeByData (l : List Vigencia) : List Vigencia :=
  (l.foldl (fun acc v =>
    if (acc.map (fun w => w.data)).contains v.data then acc else acc ++ [v]) [])

/-- `DateExtractionAgent.extract` (lines 51-100) after the text-generation
call: `llmVigs` is the parsed response of the (external) LLM call and
`regexVigs` stands for `_extract_regex_fallback` applied to the combined
content. The knowledge-base fallback, the regex fallback with
deduplication, and the final cap to 8 entries are the repository's own
logic, embedded here. -/
def dateExtract (llmVigs regexVigs : List Vigencia) (knownLawKey : Option String) :
    DateExtractionOut :=
  let v1 :=
    match knownLawKey with
    | some key =>
      if llmVigs.isEmpty || llmVigs.length < 3 then
        let kb := kbVigencias key
        if kb.isEmpty then llmVigs else kb
      else llmVigs
    | none => llmVigs
  let v2 :=
    if v1.isEmpty || v1.length < 2 then dedupeByData (v1 ++ regexVigs)
    else v1
  { dates_text := String.intercalate "\n"
      ((v2.take 8).map (fun v => v.data ++ ": " ++ v.contexto)),
    vigencias := v2.take 8,
    count := (v2.take 8).length,
    known_law_key := knownLawKey }

end Leg

namespace Leg

/-! ### Sample data used by concrete instances -/

def sampleVig1 : Vigencia :=
  { data := "01/01/2026", contexto := "Início da vigência", tipo := "inicio_vigencia",
    relevancia := "alta" }

def sampleVig2 : Vigencia :=
  { data := "31/12/2026", contexto := "Prazo-limite", tipo := "prazo_aquisicao",
    relevancia := "alta" }

def sampleVig3 : Vigencia :=
  { data := "5 anos", contexto := "Duração do benefício", tipo := "duracao_beneficio",
    relevancia := "alta" }

/-- A record carrying the extraction engine's manual-review sentinel. -/
def sentinelRec : Aliquota :=
  { tributo := sentinelTributo, tipo_mudanca := "", situacao_nova := "",
    descricao_completa := "" }

end Leg

namespace Leg

/-- C3: `merge_with_extracted_data` keeps the extracted vigência list exactly
when it has at least 3 entries and otherwise substitutes the knowledge-base
list for the key wholesale; in particular a 2-entry extracted list yields
exactly the knowledge-base list and a 3-entry one is returned unchanged. -/
theorem merge_dates_threshold :
    (∀ (ev : List Vigencia) (ec : List Aliquota) (key : String),
       (merge_with_extracted_data ev ec key).1 =
         if ev.length < 3 then kbVigencias key else ev)
    ∧ (merge_with_extracted_data [sampleVig1, sampleVig2] [] "LC_214").1 =
        kbVigencias "LC_214"
    ∧ (merge_with_extracted_data [sampleVig1, sampleVig2, sampleVig3] [] "LC_214").1 =
        [sampleVig1, sampleVig2, sampleVig3] := by
  refine ⟨?_, rfl, rfl⟩
  intro ev ec key
  by_cases h : ev.length < 3
  · simp [merge_with_extracted_data, h]
  · cases ev with
    | nil => simp at h
    | cons a t => simp [merge_with_extracted_data, h]

end Leg

namespace Leg

/-- C4 counterexample: in the system-changes stage, an invalid extracted
list (single sentinel record) with known key "MPV_1318" is NOT replaced by
the knowledge-base list — the knowledge base has no `system_changes` for
that key and the code keeps the invalid extracted list, contradicting the
claimed unconditional substitution. -/
theorem kb_fallback_not_wholesale :
    hasValidChanges [sentinelRec] = false
    ∧ kbSystemChanges "MPV_1318" = []
    ∧ applyKbFallback [sentinelRec] (some "MPV_1318") = [sentinelRec]
    ∧ applyKbFallback [sentinelRec] (some "MPV_1318") ≠ kbSystemChanges "MPV_1318" := by
  refine ⟨by decide, rfl, rfl, by decide⟩

/-- C4 amended: `merge_with_extracted_data` keeps the extracted tax-change
list iff it is non-empty with a non-sentinel first `tributo`, substituting
the knowledge-base list wholesale otherwise; the system-changes-stage
fallback applies the same validity test but substitutes only when the
knowledge-base list for the key is non-empty, keeping the extracted list
otherwise. -/
theorem merge_changes_validity_rule :
    (∀ (a : Aliquota) (t : List Aliquota),
       hasValidChanges (a :: t) = true ↔ a.tributo ≠ sentinelTributo)
    ∧ hasValidChanges [] = false
    ∧ (∀ (ev : List Vigencia) (ec : List Aliquota) (key : String),
         hasValidChanges ec = true → (merge_with_extracted_data ev ec key).2 = ec)
    ∧ (∀ (ev : List Vigencia) (ec : List Aliquota) (key : String),
         hasValidChanges ec = false →
           (merge_with_extracted_data ev ec key).2 = kbSystemChanges key)
    ∧ (∀ (al : List Aliquota) (key : String),
         hasValidChanges al = true → applyKbFallback al (some key) = al)
    ∧ (∀ (al : List Aliquota) (key : String),
         hasValidChanges al = false → kbSystemChanges key ≠ [] →
           applyKbFallback al (some key) = kbSystemChanges key)
    ∧ (∀ (al : List Aliquota) (key : String),
         hasValidChanges al = false → kbSystemChanges key = [] →
           applyKbFallback al (some key) = al) := by
  refine ⟨?_, rfl, ?_, ?_, ?_, ?_, ?_⟩
  · intro a t
    simp [hasValidChanges]
  · intro ev ec key h
    simp [merge_with_extracted_data, h]
  · intro ev ec key h
    simp [merge_with_extracted_data, h]
  · intro al key h
    simp [applyKbFallback, h]
  · intro al key h hkb
    have : (kbSystemChanges key).isEmpty = false := by
      cases hk : kbSystemChanges key with
      | nil => exact absurd hk hkb
      | cons a t => simp
    simp [applyKbFallback, h, this]
  · intro al key h hkb
    simp [applyKbFallback, h, hkb]

/-- C4 witness: the amended rule applied at a concrete invalid extracted
list and the key "LC_214", whose knowledge-base list is non-empty. -/
theorem merge_changes_validity_rule_witness :
    applyKbFallback [sentinelRec] (some "LC_214") = kbSystemChanges "LC_214" :=
  merge_changes_validity_rule.2.2.2.2.2.1 [sentinelRec] "LC_214" (by decide)
    (by decide)

end Leg

namespace Leg

/-- C5: the enhancement stage executes iff the completeness score computed
at the structure-validation stage is strictly below 0.70; a score of 0.85
routes the run from the completeness branch straight to impact analysis,
a score of 0.55 routes it through enhancement first. -/
theorem enhancement_branch_iff :
    (∀ score : ℚ,
       pipelineTrace (needsEnhancementOf score) =
         if score < 7 / 10 then
           [Node.input, Node.search, Node.detectType, Node.rawExtract,
            Node.extractDates, Node.extractNumbers, Node.validate, Node.enhance,
            Node.analyzeImpact, Node.systemChanges, Node.validationCheck,
            Node.dellRelevance, Node.review, Node.assemble]
         else
           [Node.input, Node.search, Node.detectType, Node.rawExtract,
            Node.extractDates, Node.extractNumbers, Node.validate,
            Node.analyzeImpact, Node.systemChanges, Node.validationCheck,
            Node.dellRelevance, Node.review, Node.assemble])
    ∧ (∀ score : ℚ,
         Node.enhance ∈ pipelineTrace (needsEnhancementOf score) ↔ score < 7 / 10)
    ∧ Node.enhance ∉ pipelineTrace (needsEnhancementOf (85 / 100))
    ∧ Node.enhance ∈ pipelineTrace (needsEnhancementOf (55 / 100)) := by
  have htrace : ∀ score : ℚ,
      pipelineTrace (needsEnhancementOf score) =
        if score < 7 / 10 then
          [Node.input, Node.search, Node.detectType, Node.rawExtract,
           Node.extractDates, Node.extractNumbers, Node.validate, Node.enhance,
           Node.analyzeImpact, Node.systemChanges, Node.validationCheck,
           Node.dellRelevance, Node.review, Node.assemble]
        else
          [Node.input, Node.search, Node.detectType, Node.rawExtract,
           Node.extractDates, Node.extractNumbers, Node.validate,
           Node.analyzeImpact, Node.systemChanges, Node.validationCheck,
           Node.dellRelevance, Node.review, Node.assemble] := by
    intro score
    by_cases h : score < 7 / 10
    · rw [if_pos h]
      unfold needsEnhancementOf
      rw [decide_eq_true h]
      decide
    · rw [if_neg h]
      unfold needsEnhancementOf
      rw [decide_eq_false h]
      decide
  have hmem : ∀ score : ℚ,
      Node.enhance ∈ pipelineTrace (needsEnhancementOf score) ↔ score < 7 / 10 := by
    intro score
    rw [htrace score]
    by_cases h : score < 7 / 10
    · simp only [if_pos h]
      simp [h]
    · simp only [if_neg h]
      simp [h]
  refine ⟨htrace, hmem, ?_, ?_⟩
  · rw [hmem]
    norm_num
  · rw [hmem]
    norm_num

/-- C6 counterexample: a run whose search stage yields zero documents is
not aborted — type detection returns the "default" type rather than
failing, the edge relation never consults the fetched documents, and the
trace still executes the raw-extraction stage and ends at assembly. -/
theorem empty_sources_run_completes :
    detectTypeFields [] (fun _ _ => "tipo") (fun _ _ _ => some "LC_214") =
      ("default", none)
    ∧ Node.rawExtract ∈ pipelineTrace false
    ∧ Node.rawExtract ∈ pipelineTrace true
    ∧ (pipelineTrace false).getLast? = some Node.assemble
    ∧ (pipelineTrace true).getLast? = some Node.assemble := by
  refine ⟨rfl, by decide, by decide, by decide, by decide⟩

/-- C6 amended: total fetch failure is not fatal: the compiled graph's
edges depend only on the completeness branch, so every run — with empty
`web_results` included — executes the extraction stages and terminates at
the assembly stage; `detect_type` maps an empty result list to the
"default" legislation type instead of aborting. -/
theorem empty_sources_not_fatal :
    (∀ identifyType detectKnown,
       detectTypeFields [] identifyType detectKnown = ("default", none))
    ∧ (∀ b, Node.rawExtract ∈ pipelineTrace b)
    ∧ (∀ b, Node.assemble ∈ pipelineTrace b)
    ∧ (∀ b, (pipelineTrace b).getLast? = some Node.assemble) := by
  refine ⟨fun _ _ => rfl, ?_, ?_, ?_⟩
  · intro b
    cases b <;> decide
  · intro b
    cases b <;> decide
  · intro b
    cases b <;> decide

/-- C10: the date-extraction output caps `vigencias` at 8 entries and its
`count` field equals the length of the capped list, for every combination
of LLM output, regex-fallback output and detected key. -/
theorem date_extraction_cap (llmVigs regexVigs : List Vigencia)
    (key : Option String) :
    (dateExtract llmVigs regexVigs key).vigencias.length ≤ 8
    ∧ (dateExtract llmVigs regexVigs key).count =
        (dateExtract llmVigs regexVigs key).vigencias.length := by
  refine ⟨?_, rfl⟩
  simp only [dateExtract]
  exact List.length_take_le 8 _

end Leg

namespace Leg

/-! ### Structural lemmas about the validation engine -/

lemma processAliq_tributo (t : List Char) (a : Aliquota) :
    (processAliq t a).1.tributo = a.tributo := by
  unfold processAliq
  split
  · rfl
  · split <;> rfl

lemma validateStep1_tributos (t : List Char) (l : List Aliquota) :
    (validateStep1 t l).1.map (fun a => a.tributo) =
      l.map (fun a => a.tributo) := by
  induction l with
  | nil => rfl
  | cons a rest ih =>
    simp [validateStep1, ih, processAliq_tributo]

lemma validateStep1_err_mem (t : List Char) (l : List Aliquota) (a : Aliquota)
    (ha : a ∈ l) (hv : validateTributo a.tributo t = false) :
    errNotFound a.tributo ∈ (validateStep1 t l).2.2 := by
  induction l with
  | nil => cases ha
  | cons b rest ih =>
    rcases List.mem_cons.mp ha with h | h
    · subst h
      have hpe : (processAliq t a).2.2 = [errNotFound a.tributo] := by
        unfold processAliq
        rw [if_pos hv]
      exact List.mem_append_left _
        (by rw [hpe]; exact List.mem_singleton_self _)
    · exact List.mem_append_right _ (ih h)

lemma applyLLMCorrection_tributos (c : LLMCorrection) (l : List Aliquota) :
    (applyLLMCorrection c l).1.map (fun a => a.tributo) =
      l.map (fun a => a.tributo) := by
  induction l with
  | nil => rfl
  | cons a rest ih =>
    unfold applyLLMCorrection
    by_cases h : a.tributo = c.tributo <;> simp [h, ih]

lemma applyLLMCorrections_tributos (cs : List LLMCorrection) (l : List Aliquota) :
    (applyLLMCorrections cs l).1.map (fun a => a.tributo) =
      l.map (fun a => a.tributo) := by
  induction cs generalizing l with
  | nil => rfl
  | cons c rest ih =>
    simp [applyLLMCorrections]
    rw [ih, applyLLMCorrection_tributos]

lemma validatePost_tributos (llm : List LLMCorrection) (l : List Aliquota)
    (errs : List String) :
    (validatePost llm l errs).1.map (fun a => a.tributo) =
      l.map (fun a => a.tributo) := by
  unfold validatePost
  split
  · rfl
  · split
    · exact applyLLMCorrections_tributos llm l
    · rfl

/-- Unfolding equation of `validateRun` on the non-skip path. -/
lemma validateRun_spec (llm : List LLMCorrection) (text : String)
    (aliqs : List Aliquota) (vigs : List Vigencia) (h : text ≠ "") :
    validateRun llm text aliqs vigs =
      { aliquotas :=
          (validatePost llm (validateStep1 (lowerL text.data) aliqs).1
            (validateStep1 (lowerL text.data) aliqs).2.2).1,
        vigencias := validateVigencias vigs (lowerL text.data),
        status := some {
          validated := true,
          corrections_made :=
            (validateStep1 (lowerL text.data) aliqs).2.1 +
              (validatePost llm (validateStep1 (lowerL text.data) aliqs).1
                (validateStep1 (lowerL text.data) aliqs).2.2).2,
          errors := (validateStep1 (lowerL text.data) aliqs).2.2,
          confidence :=
            if (validateStep1 (lowerL text.data) aliqs).2.2.isEmpty
            then "alta" else "media" } } := by
  unfold validateRun
  rw [if_neg h]

end Leg

namespace Leg

lemma statusConfidenceIff (v : Bool) (c : Nat) (errs : List String) :
    (((ValidationStatus.mk v c errs
        (if errs.isEmpty then "alta" else "media")).confidence = "alta"
      ↔ (ValidationStatus.mk v c errs
          (if errs.isEmpty then "alta" else "media")).errors = []))
    ∧ (((ValidationStatus.mk v c errs
          (if errs.isEmpty then "alta" else "media")).confidence = "media"
        ↔ (ValidationStatus.mk v c errs
            (if errs.isEmpty then "alta" else "media")).errors ≠ [])) := by
  cases errs with
  | nil =>
    refine ⟨⟨fun _ => rfl, fun _ => rfl⟩, ⟨fun hc => ?_, fun hc => absurd rfl hc⟩⟩
    exact absurd hc (show ¬("alta" : String) = "media" by decide)
  | cons e rest =>
    refine ⟨⟨fun hc => ?_, fun hc => absurd hc (List.cons_ne_nil e rest)⟩,
      ⟨fun _ => List.cons_ne_nil e rest, fun _ => rfl⟩⟩
    exact absurd hc (show ¬("media" : String) = "alta" by decide)

/-- C9 (amended): the validation engine writes `validation_status` — with
`validated = true`, the list of unresolved errors produced by the
per-record checks, the total corrections counter, and a confidence that is
"alta" exactly when no unresolved error remains and "media" otherwise —
exactly when an original text is available; when no original text can be
found, `validate` returns the state untouched and `validation_status` is
never written. -/
theorem validation_status_contents (llm : List LLMCorrection) (text : String)
    (aliqs : List Aliquota) (vigs : List Vigencia) :
    (text = "" →
      validateRun llm text aliqs vigs =
        { aliquotas := aliqs, vigencias := vigs, status := none })
    ∧ (text ≠ "" →
      ((validateRun llm text aliqs vigs).status.map
          (fun st => st.validated) = some true)
      ∧ ((validateRun llm text aliqs vigs).status.map
          (fun st => st.errors) =
            some (validateStep1 (lowerL text.data) aliqs).2.2)
      ∧ ((validateRun llm text aliqs vigs).status.map
          (fun st => st.corrections_made) =
            some ((validateStep1 (lowerL text.data) aliqs).2.1 +
              (validatePost llm (validateStep1 (lowerL text.data) aliqs).1
                (validateStep1 (lowerL text.data) aliqs).2.2).2))
      ∧ (∀ st, (validateRun llm text aliqs vigs).status = some st →
          ((st.confidence = "alta" ↔ st.errors = [])
            ∧ (st.confidence = "media" ↔ st.errors ≠ [])))) := by
  constructor
  · intro h
    unfold validateRun
    rw [if_pos h]
  intro h
  rw [validateRun_spec llm text aliqs vigs h]
  refine ⟨rfl, rfl, rfl, ?_⟩
  intro st hst
  have hst' : st =
      { validated := true,
        corrections_made :=
          (validateStep1 (lowerL text.data) aliqs).2.1 +
            (validatePost llm (validateStep1 (lowerL text.data) aliqs).1
              (validateStep1 (lowerL text.data) aliqs).2.2).2,
        errors := (validateStep1 (lowerL text.data) aliqs).2.2,
        confidence :=
          if (validateStep1 (lowerL text.data) aliqs).2.2.isEmpty
          then "alta" else "media" } :=
    (Option.some.inj hst).symm
  subst hst'
  exact statusConfidenceIff _ _ _

/-- C9 witness: the theorem applied at a concrete run with non-empty
original text and no extracted records, discharging the non-empty-text
branch's hypothesis. -/
theorem validation_status_contents_witness :
    ((validateRun [] "x" [] []).status.map (fun st => st.validated) = some true)
    ∧ ((validateRun [] "x" [] []).status.map (fun st => st.errors) =
        some (validateStep1 (lowerL "x".data) []).2.2)
    ∧ ((validateRun [] "x" [] []).status.map (fun st => st.corrections_made) =
        some ((validateStep1 (lowerL "x".data) []).2.1 +
          (validatePost [] (validateStep1 (lowerL "x".data) []).1
            (validateStep1 (lowerL "x".data) []).2.2).2))
    ∧ (∀ st, (validateRun [] "x" [] []).status = some st →
        ((st.confidence = "alta" ↔ st.errors = [])
          ∧ (st.confidence = "media" ↔ st.errors ≠ []))) :=
  (validation_status_contents [] "x" [] []).2 (by decide)

end Leg

namespace Leg

/-- A record whose tax code has no occurrence in the test text. -/
def xyzRec : Aliquota :=
  { tributo := "XYZ", tipo_mudanca := "ISENÇÃO",
    situacao_nova := "Isenção do XYZ", descricao_completa := "XYZ: ISENÇÃO" }

def c1Text : String := "lei que altera o icms."

/-- C1 counterexample: a validation run whose final tax-change list still
contains a record whose tax-code pattern set matches nowhere in the source
text — the engine only appends an error and keeps the record, so ungrounded
records are not dropped. -/
theorem ungrounded_record_survives :
    validateTributo "XYZ" (lowerL c1Text.data) = false
    ∧ (validateRun [] c1Text [xyzRec] []).aliquotas = [xyzRec]
    ∧ (validateRun [] c1Text [xyzRec] []).status =
        some { validated := true, corrections_made := 0,
               errors := [errNotFound "XYZ"], confidence := "media" } := by
  refine ⟨by decide, by decide, by decide⟩

/-- C1 amended: the validation stage never removes a record from the
tax-change list; a record whose tax code is not grounded in the source text
keeps its position and its `tributo` and contributes a human-readable error
to `validation_status.errors` (so the run's confidence degrades to "media"
instead of the record being dropped). -/
theorem validation_flags_ungrounded_keeps_records (llm : List LLMCorrection)
    (text : String) (aliqs : List Aliquota) (vigs : List Vigencia)
    (h : text ≠ "") :
    ((validateRun llm text aliqs vigs).aliquotas.map (fun a => a.tributo) =
       aliqs.map (fun a => a.tributo))
    ∧ (validateRun llm text aliqs vigs).aliquotas.length = aliqs.length
    ∧ ((validateRun llm text aliqs vigs).status.map (fun st => st.errors) =
        some (validateStep1 (lowerL text.data) aliqs).2.2)
    ∧ (∀ a ∈ aliqs, validateTributo a.tributo (lowerL text.data) = false →
        errNotFound a.tributo ∈ (validateStep1 (lowerL text.data) aliqs).2.2) := by
  rw [validateRun_spec llm text aliqs vigs h]
  have hmap :
      ((validatePost llm (validateStep1 (lowerL text.data) aliqs).1
          (validateStep1 (lowerL text.data) aliqs).2.2).1.map
        (fun a => a.tributo)) = aliqs.map (fun a => a.tributo) := by
    rw [validatePost_tributos, validateStep1_tributos]
  refine ⟨hmap, ?_, rfl, ?_⟩
  · have := congrArg List.length hmap
    simpa using this
  · intro a ha hv
    exact validateStep1_err_mem (lowerL text.data) aliqs a ha hv

/-- C1 witness: the amended statement instantiated on a one-record list
whose tax code does not occur in the text. -/
theorem validation_flags_ungrounded_keeps_records_witness :
    ((validateRun [] c1Text [xyzRec] []).aliquotas.map (fun a => a.tributo) =
       [xyzRec].map (fun a => a.tributo))
    ∧ errNotFound "XYZ" ∈ (validateStep1 (lowerL c1Text.data) [xyzRec]).2.2 :=
  ⟨(validation_flags_ungrounded_keeps_records [] c1Text [xyzRec] []
      (by decide)).1,
   (validation_flags_ungrounded_keeps_records [] c1Text [xyzRec] []
      (by decide)).2.2.2 xyzRec (List.mem_singleton_self _) (by decide)⟩

end Leg

namespace Leg

/-- The Roman-numeral-enumeration text of the import-duty test. -/
def c2Text : String := "conforme incisos II, III, IV e V do art. 5º"

def iiRec : Aliquota :=
  { tributo := "II", tipo_mudanca := "ISENÇÃO",
    situacao_nova := "Isenção do II", descricao_completa := "II: ISENÇÃO" }

/-- C2 counterexample: on the enumeration-only text the II record is NOT
dropped from the tax-change list — it is still a member of the validated
list (the engine only records an error for it). -/
theorem ii_record_not_dropped :
    iiRec ∈ (validateRun [] c2Text [iiRec] []).aliquotas := by
  decide

/-- C2 amended: on the enumeration-only text the import-duty pattern set
correctly fails to match (the negative lookahead rejects `II` followed by
further Roman numerals), so the record is flagged as ungrounded — but it
remains in the list for every possible escalation response, with only an
error entry recording the failure. -/
theorem ii_false_positive_flagged_not_dropped :
    validateTributo "II" (lowerL c2Text.data) = false
    ∧ (∀ llm, (validateRun llm c2Text [iiRec] []).aliquotas.map
        (fun a => a.tributo) = ["II"])
    ∧ (validateRun [] c2Text [iiRec] []).status =
        some { validated := true, corrections_made := 0,
               errors := [errNotFound "II"], confidence := "media" } := by
  refine ⟨by decide, ?_, by decide⟩
  intro llm
  rw [validateRun_spec llm c2Text [iiRec] [] (by decide)]
  show ((validatePost llm (validateStep1 (lowerL c2Text.data) [iiRec]).1
      (validateStep1 (lowerL c2Text.data) [iiRec]).2.2).1.map
        (fun a => a.tributo)) = ["II"]
  rw [validatePost_tributos, validateStep1_tributos]
  rfl

end Leg

namespace Leg

def pisRec : Aliquota :=
  { tributo := "PIS", tipo_mudanca := "ISENÇÃO",
    situacao_nova := "Isenção", descricao_completa := "PIS: ISENÇÃO" }

/-- The exact source text named by the type-reconciliation test property. -/
def c7Text : String := "fica suspensa a exigência da Contribuição para o PIS"

/-- A source text where a suspension pattern does occur inside the window
around the tax code (the shape of the repository's own standalone test). -/
def c7WitnessText : String :=
  "fica suspensa a exigência da contribuição para o pis. a suspensão de que trata o caput converte-se."

/-- C7 counterexample: on the text consisting exactly of the phrase named
by the claim, no suspension pattern matches ("suspensa" is matched by none
of `suspens[ãa]o`, `suspend[ea]`, `fica\s+suspenso`, ...), so the engine
performs no rewrite: the record keeps `ISENÇÃO`, the corrections counter
stays 0, and an unresolved error is recorded instead. -/
theorem pis_suspensa_no_rewrite :
    (validateRun [] c7Text [pisRec] []).aliquotas = [pisRec]
    ∧ (validateRun [] c7Text [pisRec] []).status =
        some { validated := true, corrections_made := 0,
               errors := [errTipoNotConfirmed "PIS" "ISENÇÃO"],
               confidence := "media" } := by
  refine ⟨by decide, by decide⟩

/-- C7 amended: whenever the tax code is grounded, the assigned change type
resolves to a known non-composite type, and the priority scan of the
bounded windows around the tax code finds a different type, the record's
type is overwritten with the type found in the text, its description and
new-state fields are regenerated from the type→template table, and the
corrections counter increases by exactly 1 (for a one-record list); this
requires a type pattern to actually match inside the window — text
containing only "fica suspensa ..." triggers the unresolved-error path
instead. -/
theorem type_reconciliation (llm : List LLMCorrection) (text : String)
    (a : Aliquota) (tc tFound : String)
    (h : text ≠ "")
    (hg : validateTributo a.tributo (lowerL text.data) = true)
    (hr : tipoResolution a.tipo_mudanca = (some tc, none))
    (hs : scanContexts (effectiveContexts a.tributo (lowerL text.data)) =
            some tFound)
    (hne : tc ≠ tFound) :
    (validateRun llm text [a] []).aliquotas =
      [{ a with
          tipo_mudanca := tFound,
          descricao_completa := a.tributo ++ ": " ++ tFound,
          situacao_nova := getSituacaoNova tFound a.tributo }]
    ∧ (validateRun llm text [a] []).status =
        some { validated := true, corrections_made := 1, errors := [],
               confidence := "alta" } := by
  have hvc : validateChangeType a.tributo a.tipo_mudanca (lowerL text.data) =
      (false, some tFound) := by
    unfold validateChangeType
    rw [hr, hs]
    dsimp only
    rw [if_neg hne]
    simp
  have hpa : processAliq (lowerL text.data) a =
      ({ a with
          tipo_mudanca := tFound,
          descricao_completa := a.tributo ++ ": " ++ tFound,
          situacao_nova := getSituacaoNova tFound a.tributo }, 1, []) := by
    unfold processAliq
    rw [if_neg (by rw [hg]; exact fun hc => Bool.noConfusion hc), hvc]
  have hstep : validateStep1 (lowerL text.data) [a] =
      ([{ a with
            tipo_mudanca := tFound,
            descricao_completa := a.tributo ++ ": " ++ tFound,
            situacao_nova := getSituacaoNova tFound a.tributo }], 1, []) := by
    simp [validateStep1, hpa]
  rw [validateRun_spec llm text [a] [] h, hstep]
  exact ⟨rfl, rfl⟩

/-- C7 witness: the amended statement instantiated on a text whose window
around the tax code contains "a suspensão", forcing the rewrite
`ISENÇÃO → SUSPENSÃO` with exactly one correction counted. -/
theorem type_reconciliation_witness :
    (validateRun [] c7WitnessText [pisRec] []).aliquotas =
      [{ pisRec with
          tipo_mudanca := "SUSPENSÃO",
          descricao_completa := "PIS" ++ ": " ++ "SUSPENSÃO",
          situacao_nova := getSituacaoNova "SUSPENSÃO" "PIS" }]
    ∧ (validateRun [] c7WitnessText [pisRec] []).status =
        some { validated := true, corrections_made := 1, errors := [],
               confidence := "alta" } :=
  type_reconciliation [] c7WitnessText pisRec "ISENÇÃO" "SUSPENSÃO"
    (by decide) (by decide) (by decide) (by decide) (by decide)

end Leg

namespace Leg

/-! ### Character-chain regular expressions: exact semantics

The date-grounding patterns (`data.replace("/", ...)` as a regex, the
`\b`-escaped literal and `20\d{2}`) are chains of single-character
matchers; their matching relation is characterised exactly, which lets the
vigência-validation claim be stated in terms of plain substring
occurrence. -/

/-- Does the single-character pattern `r` accept character `c`? -/
def charMatch1 (r : RE) (c : Char) : Bool :=
  match r with
  | .lit d => c = d
  | .cls cs => cs.contains c
  | .anyc => c ≠ '\n'
  | _ => false

def isAtomic (r : RE) : Bool :=
  match r with
  | .lit _ | .cls _ | .anyc => true
  | _ => false

/-- Pointwise acceptance of a chain of single-character patterns starting
at position `i`. -/
def atomAt (s : List Char) : Nat → List RE → Bool
  | _, [] => true
  | i, r :: rest =>
    match s[i]? with
    | some c => charMatch1 r c && atomAt s (i + 1) rest
    | none => false

lemma matchEnds_atomic (r : RE) (hr : isAtomic r = true) (s : List Char)
    (i : Nat) (fuel : Nat) (hf : 0 < fuel) :
    matchEnds fuel r s i =
      (match s[i]? with
       | some c => if charMatch1 r c then [i + 1] else []
       | none => []) := by
  cases fuel with
  | zero => omega
  | succ f =>
    cases r with
    | lit d =>
      show (match s[i]? with
            | some e => if e = d then [i + 1] else []
            | none => []) = _
      cases hg : s[i]? with
      | none => rfl
      | some e =>
        by_cases he : e = d
        · simp [charMatch1, he]
        · simp [charMatch1, he]
    | cls cs =>
      show (match s[i]? with
            | some e => if cs.contains e then [i + 1] else []
            | none => []) = _
      cases hg : s[i]? with
      | none => rfl
      | some e =>
        by_cases he : cs.contains e
        · simp [charMatch1, he]
        · simp [charMatch1, he]
    | anyc =>
      show (match s[i]? with
            | some e => if e = '\n' then [] else [i + 1]
            | none => []) = _
      cases hg : s[i]? with
      | none => rfl
      | some e =>
        by_cases he : e = '\n'
        · simp [charMatch1, he]
        · simp [charMatch1, he]
    | eps => simp [isAtomic] at hr
    | seq a b => simp [isAtomic] at hr
    | alt a b => simp [isAtomic] at hr
    | star a => simp [isAtomic] at hr
    | wb => simp [isAtomic] at hr
    | nlk a => simp [isAtomic] at hr
    | plk a => simp [isAtomic] at hr

lemma matchEnds_chainA (l : List RE) (hl : ∀ r ∈ l, isAtomic r = true)
    (s : List Char) :
    ∀ (fuel i : Nat), l.length < fuel →
      matchEnds fuel (chainA l) s i =
        (if atomAt s i l then [i + l.length] else []) := by
  induction l with
  | nil =>
    intro fuel i hf
    cases fuel with
    | zero => omega
    | succ f => simp [chainA, matchEnds, atomAt]
  | cons r rest ih =>
    intro fuel i hf
    cases fuel with
    | zero => omega
    | succ f =>
      have hfr : rest.length < f := by
        simp only [List.length_cons] at hf
        omega
      have hra : isAtomic r = true := hl r (List.mem_cons_self r rest)
      have hrest : ∀ q ∈ rest, isAtomic q = true :=
        fun q hq => hl q (List.mem_cons_of_mem r hq)
      show (matchEnds f r s i).flatMap (fun j => matchEnds f (chainA rest) s j) =
        if atomAt s i (r :: rest) then [i + (r :: rest).length] else []
      have hA : atomAt s i (r :: rest) =
          (match s[i]? with
           | some c => charMatch1 r c && atomAt s (i + 1) rest
           | none => false) := rfl
      rw [matchEnds_atomic r hra s i f (by omega), hA]
      cases hg : s[i]? with
      | none =>
        simp
      | some c =>
        by_cases hc : charMatch1 r c = true
        · have hih := ih hrest f (i + 1) hfr
          have harith : i + 1 + rest.length = i + (rest.length + 1) := by omega
          simp [hc, hih, harith]
        · simp [hc]

end Leg

namespace Leg

lemma reSize_pos (r : RE) : 1 ≤ reSize r := by
  cases r <;> simp only [reSize] <;> omega

lemma reSize_chainA_ge (l : List RE) : l.length ≤ reSize (chainA l) := by
  induction l with
  | nil => simp [chainA, reSize]
  | cons r rest ih =>
    have := reSize_pos r
    simp only [chainA, reSize, List.length_cons]
    omega

lemma length_lt_fuelFor_chainA (l : List RE) (s : List Char) :
    l.length < fuelFor (chainA l) s := by
  have h1 := reSize_chainA_ge l
  have h2 : reSize (chainA l) + 1 ≤ (reSize (chainA l) + 1) * (s.length + 2) :=
    Nat.le_mul_of_pos_right _ (by omega)
  unfold fuelFor
  omega

/-- Claim-level flexible character comparison: a `/` in the date value may
match either `-` or `/` in the text; every other character must occur
verbatim. -/
def flexCharOK (pc tc : Char) : Bool :=
  if pc = '/' then (tc = '-' || tc = '/') else tc = pc

/-- The date value `d` occurs at position `i` of `s` up to separator
normalization. -/
def flexAt (s : List Char) : Nat → List Char → Bool
  | _, [] => true
  | i, pc :: ps =>
    match s[i]? with
    | some tc => flexCharOK pc tc && flexAt s (i + 1) ps
    | none => false

/-- The date value `d` occurs somewhere in `s` up to separator
normalization. -/
def flexContains (s d : List Char) : Bool :=
  (List.range (s.length + 1)).any (fun i => flexAt s i d)

/-- Characters that are regular-expression metacharacters (other than the
slash the code deliberately rewrites): date values made only of other
characters are matched literally by the code's dynamically built regex. -/
def plainDataChar (c : Char) : Bool :=
  !(['*', '+', '?', '(', ')', '[', ']', '\x7b', '\x7d', '|', '\\',
     '^', '$', '.'].contains c)

def plainData (d : List Char) : Bool := d.all plainDataChar

lemma compileDataCh_atomic (c : Char) : isAtomic (compileDataCh c) = true := by
  unfold compileDataCh
  by_cases h1 : c = '/'
  · simp [h1, isAtomic]
  · by_cases h2 : c = '.'
    · simp [h1, h2, isAtomic]
    · simp [h1, h2, isAtomic]

lemma charMatch1_compileDataCh (pc tc : Char) (hp : plainDataChar pc = true) :
    charMatch1 (compileDataCh pc) tc = flexCharOK pc tc := by
  unfold compileDataCh flexCharOK
  by_cases h1 : pc = '/'
  · simp [h1, charMatch1]
  · have h2 : pc ≠ '.' := by
      intro hc
      subst hc
      simp [plainDataChar] at hp
    simp [h1, h2, charMatch1]

lemma atomAt_map_compile (d : List Char) (s : List Char)
    (hp : plainData d = true) :
    ∀ i, atomAt s i (d.map compileDataCh) = flexAt s i d := by
  induction d with
  | nil => intro i; rfl
  | cons pc ps ih =>
    intro i
    have hp' : plainDataChar pc = true ∧ plainData ps = true := by
      rw [show plainData (pc :: ps) = (plainDataChar pc && plainData ps) from rfl,
        Bool.and_eq_true] at hp
      exact hp
    show (match s[i]? with
          | some tc => charMatch1 (compileDataCh pc) tc &&
              atomAt s (i + 1) (ps.map compileDataCh)
          | none => false) =
        (match s[i]? with
          | some tc => flexCharOK pc tc && flexAt s (i + 1) ps
          | none => false)
    cases s[i]? with
    | none => rfl
    | some tc =>
      dsimp only
      rw [charMatch1_compileDataCh pc tc hp'.1, ih hp'.2 (i + 1)]

lemma reSearch_compileData (d : List Char) (textL : List Char)
    (hp : plainData d = true) :
    reSearch (compileData d) textL = flexContains textL d := by
  unfold reSearch flexContains compileData
  have hfuel : (d.map compileDataCh).length <
      fuelFor (chainA (d.map compileDataCh)) textL :=
    length_lt_fuelFor_chainA _ _
  have hatoms : ∀ r ∈ d.map compileDataCh, isAtomic r = true := by
    intro r hr
    rcases List.mem_map.mp hr with ⟨c, _, hc⟩
    rw [← hc]
    exact compileDataCh_atomic c
  have hfun : (fun i => !(matchEnds
        (fuelFor (chainA (d.map compileDataCh)) textL)
        (chainA (d.map compileDataCh)) textL i).isEmpty) =
      (fun i => flexAt textL i d) := by
    funext i
    rw [matchEnds_chainA (d.map compileDataCh) hatoms textL _ i hfuel]
    rw [atomAt_map_compile d textL hp i]
    by_cases hfa : flexAt textL i d
    · simp [hfa]
    · simp [hfa]
  rw [hfun]

end Leg

namespace Leg

lemma charMatch1_lit_imp_flex (pc tc : Char)
    (h : charMatch1 (RE.lit pc) tc = true) : flexCharOK pc tc = true := by
  have htc : tc = pc := by simpa [charMatch1] using h
  subst htc
  unfold flexCharOK
  by_cases hp : tc = '/'
  · simp [hp]
  · simp [hp]

lemma atomAt_lit_imp_flexAt (d : List Char) (s : List Char) :
    ∀ i, atomAt s i (d.map RE.lit) = true → flexAt s i d = true := by
  induction d with
  | nil => intro i _; rfl
  | cons pc ps ih =>
    intro i h
    have h' : (match s[i]? with
        | some tc => charMatch1 (RE.lit pc) tc &&
            atomAt s (i + 1) (ps.map RE.lit)
        | none => false) = true := h
    show (match s[i]? with
        | some tc => flexCharOK pc tc && flexAt s (i + 1) ps
        | none => false) = true
    cases hg : s[i]? with
    | none => rw [hg] at h'; exact absurd h' (by simp)
    | some tc =>
      rw [hg] at h'
      dsimp only at h'
      dsimp only
      simp only [Bool.and_eq_true] at h'
      rcases h' with ⟨h1, h2⟩
      rw [charMatch1_lit_imp_flex pc tc h1, ih (i + 1) h2]
      rfl

lemma flatMap_ne_nil_src {α β : Type} (l : List α) (f : α → List β)
    (h : l.flatMap f ≠ []) : ∃ x ∈ l, f x ≠ [] := by
  by_contra hc
  push_neg at hc
  exact h (List.flatMap_eq_nil_iff.mpr hc)

/-- If the `\b`-escaped literal pattern for `d` matches somewhere in the
text, `d` also occurs up to separator normalization (a literal occurrence
is one of the normalized variants). -/
lemma reSearch_escapedWb_imp_flex (d : List Char) (textL : List Char)
    (h : reSearch (escapedWbRE d) textL = true) :
    flexContains textL d = true := by
  obtain ⟨i, hi, hne⟩ := List.any_eq_true.mp h
  set F := fuelFor (escapedWbRE d) textL with hF
  have hne' : matchEnds F (escapedWbRE d) textL i ≠ [] := by
    intro hc
    rw [hc] at hne
    simp at hne
  have hrs : (d.map RE.lit).length ≤ reSize (chainA (d.map RE.lit)) := by
    have := reSize_chainA_ge (d.map RE.lit)
    omega
  have hFval : F = (reSize (chainA (d.map RE.lit)) + 4 + 1) *
      (textL.length + 2) + 1 := by
    rw [hF]
    unfold fuelFor escapedWbRE
    simp [reSize]
    ring
  have hFbig : (d.map RE.lit).length + 2 < F := by
    rw [hFval]
    have h2 : (reSize (chainA (d.map RE.lit)) + 4 + 1) * (textL.length + 2) ≥
        (reSize (chainA (d.map RE.lit)) + 4 + 1) * 2 :=
      Nat.mul_le_mul_left _ (by omega)
    omega
  obtain ⟨f, hfeq⟩ : ∃ f, F = f + 2 := by
    refine ⟨F - 2, by omega⟩
  have hflen : (d.map RE.lit).length < f := by omega
  rw [hfeq] at hne'
  have hstep1 : matchEnds (f + 2) (escapedWbRE d) textL i =
      (matchEnds (f + 1) RE.wb textL i).flatMap
        (fun j => matchEnds (f + 1) (RE.seq (chainA (d.map RE.lit)) RE.wb) textL j) :=
    rfl
  rw [hstep1] at hne'
  obtain ⟨j, hjmem, hjne⟩ := flatMap_ne_nil_src _ _ hne'
  have hwb : matchEnds (f + 1) RE.wb textL i =
      if wordBoundaryAt textL i then [i] else [] := rfl
  have hji : j = i := by
    rw [hwb] at hjmem
    by_cases hb : wordBoundaryAt textL i
    · rw [if_pos hb] at hjmem
      simpa using hjmem
    · rw [if_neg hb] at hjmem
      simp at hjmem
  subst hji
  have hstep2 : matchEnds (f + 1) (RE.seq (chainA (d.map RE.lit)) RE.wb) textL j =
      (matchEnds f (chainA (d.map RE.lit)) textL j).flatMap
        (fun k => matchEnds f RE.wb textL k) := rfl
  rw [hstep2] at hjne
  obtain ⟨k, hkmem, _⟩ := flatMap_ne_nil_src _ _ hjne
  have hatoms : ∀ r ∈ d.map RE.lit, isAtomic r = true := by
    intro r hr
    rcases List.mem_map.mp hr with ⟨c, _, hc⟩
    rw [← hc]
    rfl
  rw [matchEnds_chainA (d.map RE.lit) hatoms textL f j hflen] at hkmem
  have hat : atomAt textL j (d.map RE.lit) = true := by
    by_cases hA : atomAt textL j (d.map RE.lit)
    · exact hA
    · rw [if_neg hA] at hkmem
      simp at hkmem
  have hflex := atomAt_lit_imp_flexAt d textL j hat
  exact List.any_eq_true.mpr ⟨j, hi, hflex⟩

end Leg

namespace Leg

lemma atomAt_bound (s : List Char) : ∀ (l : List RE) (i : Nat),
    atomAt s i l = true → l = [] ∨ i + l.length ≤ s.length := by
  intro l
  induction l with
  | nil => intro i _; exact Or.inl rfl
  | cons r rest ih =>
    intro i h
    have h' : (match s[i]? with
        | some c => charMatch1 r c && atomAt s (i + 1) rest
        | none => false) = true := h
    cases hg : s[i]? with
    | none => rw [hg] at h'; exact absurd h' (by simp)
    | some c =>
      rw [hg] at h'
      dsimp only at h'
      simp only [Bool.and_eq_true] at h'
      have hlt : i < s.length := by
        by_contra hge
        push_neg at hge
        rw [List.getElem?_eq_none hge] at hg
        exact Option.noConfusion hg
      refine Or.inr ?_
      rcases ih (i + 1) h'.2 with hnil | hbound
      · subst hnil
        simp only [List.length_cons, List.length_nil]
        omega
      · simp only [List.length_cons]
        omega

lemma reFindFromAux_chain (l : List RE) (hl : ∀ r ∈ l, isAtomic r = true)
    (s : List Char) : ∀ (fuel i a b : Nat),
    reFindFromAux fuel (chainA l) s i = some (a, b) →
      b = a + l.length ∧ atomAt s a l = true := by
  intro fuel
  induction fuel with
  | zero => intro i a b hc; exact Option.noConfusion hc
  | succ f ih =>
    intro i a b hc
    have hme : reMatchEnd (chainA l) s i =
        if atomAt s i l then some (i + l.length) else none := by
      unfold reMatchEnd
      rw [matchEnds_chainA l hl s _ i (length_lt_fuelFor_chainA l s)]
      by_cases h : atomAt s i l
      · simp [h]
      · simp [h]
    have hc' : (match reMatchEnd (chainA l) s i with
        | some e => some (i, e)
        | none => reFindFromAux f (chainA l) s (i + 1)) = some (a, b) := hc
    rw [hme] at hc'
    by_cases h : atomAt s i l
    · rw [if_pos h] at hc'
      dsimp only at hc'
      have hab : i = a ∧ i + l.length = b := by
        have := Option.some.inj hc'
        exact ⟨congrArg Prod.fst this, congrArg Prod.snd this⟩
      rcases hab with ⟨ha, hb⟩
      subst ha
      exact ⟨hb.symm, h⟩
    · rw [if_neg h] at hc'
      exact ih (i + 1) a b hc'

lemma startsWithL_take (t : List Char) : ∀ k, startsWithL (t.take k) t = true := by
  induction t with
  | nil => intro k; simp [startsWithL]
  | cons c rest ih =>
    intro k
    cases k with
    | zero => rfl
    | succ k' =>
      show startsWithL (c :: rest.take k') (c :: rest) = true
      simp [startsWithL, ih k']

lemma containsL_of_startsWith_drop (p : List Char) : ∀ (a : Nat) (s : List Char),
    startsWithL p (s.drop a) = true → containsL s p = true := by
  intro a
  induction a with
  | zero =>
    intro s h
    cases s with
    | nil =>
      cases p with
      | nil => rfl
      | cons q qs => exact absurd h (by simp [startsWithL])
    | cons c rest =>
      show (startsWithL p (c :: rest) || containsL rest p) = true
      rw [List.drop_zero] at h
      simp [h]
  | succ a' ih =>
    intro s h
    cases s with
    | nil =>
      cases p with
      | nil => rfl
      | cons q qs => exact absurd h (by simp [startsWithL])
    | cons c rest =>
      have h' : startsWithL p (rest.drop a') = true := h
      show (startsWithL p (c :: rest) || containsL rest p) = true
      rw [ih rest h']
      simp

/-- The `20\d{2}` search, when it succeeds, yields a four-character string
starting with "20" that occurs verbatim inside the date value. -/
lemma yearOf_spec (d : List Char) (y : List Char) (hy : yearOf d = some y) :
    y.length = 4 ∧ startsWithL ['2', '0'] y = true ∧ containsL d y = true := by
  have hatoms : ∀ r ∈ [RE.lit '2', RE.lit '0', digitCls, digitCls],
      isAtomic r = true := by
    intro r hr
    simp only [List.mem_cons, List.not_mem_nil, or_false] at hr
    rcases hr with h | h | h | h <;> rw [h] <;> rfl
  have hy' : (match reFindFrom yearRE d 0 with
      | some ab => some (sliceL d ab.1 ab.2)
      | none => none) = some y := hy
  cases hfind : reFindFrom yearRE d 0 with
  | none => rw [hfind] at hy'; exact Option.noConfusion hy'
  | some ab =>
    rw [hfind] at hy'
    dsimp only at hy'
    have hyeq : y = sliceL d ab.1 ab.2 := (Option.some.inj hy').symm
    have hspec := reFindFromAux_chain [RE.lit '2', RE.lit '0', digitCls, digitCls]
      hatoms d (d.length + 1 - 0) 0 ab.1 ab.2 (by
        have : reFindFrom yearRE d 0 = some (ab.1, ab.2) := by
          rw [hfind]
        exact this)
    rcases hspec with ⟨hb, hat⟩
    have hblen : ab.2 = ab.1 + 4 := by simpa using hb
    have hbound := atomAt_bound d _ ab.1 hat
    have hbound4 : ab.1 + 4 ≤ d.length := by
      rcases hbound with hnil | hle
      · exact absurd hnil (by simp)
      · simpa using hle
    have hylen : y.length = 4 := by
      rw [hyeq, hblen]
      unfold sliceL
      rw [List.length_drop, List.length_take]
      omega
    refine ⟨hylen, ?_, ?_⟩
    · -- the slice starts with '2', '0'
      have hat' : (match d[ab.1]? with
          | some c => charMatch1 (RE.lit '2') c &&
              atomAt d (ab.1 + 1) [RE.lit '0', digitCls, digitCls]
          | none => false) = true := hat
      cases hg0 : d[ab.1]? with
      | none => rw [hg0] at hat'; exact absurd hat' (by simp)
      | some c0 =>
        rw [hg0] at hat'
        dsimp only at hat'
        simp only [Bool.and_eq_true] at hat'
        have hc0 : c0 = '2' := by simpa [charMatch1] using hat'.1
        have hat2 := hat'.2
        have hat2' : (match d[ab.1 + 1]? with
            | some c => charMatch1 (RE.lit '0') c &&
                atomAt d (ab.1 + 1 + 1) [digitCls, digitCls]
            | none => false) = true := hat2
        cases hg1 : d[ab.1 + 1]? with
        | none => rw [hg1] at hat2'; exact absurd hat2' (by simp)
        | some c1 =>
          rw [hg1] at hat2'
          dsimp only at hat2'
          simp only [Bool.and_eq_true] at hat2'
          have hc1 : c1 = '0' := by simpa [charMatch1] using hat2'.1
          have hy0 : y[0]? = some '2' := by
            rw [hyeq]
            unfold sliceL
            rw [List.getElem?_drop, List.getElem?_take]
            rw [if_pos (by omega)]
            rw [Nat.add_zero, hg0, hc0]
          have hy1 : y[1]? = some '0' := by
            rw [hyeq]
            unfold sliceL
            rw [List.getElem?_drop, List.getElem?_take]
            rw [if_pos (by omega)]
            rw [hg1, hc1]
          cases y with
          | nil => exact absurd hylen (by simp)
          | cons e0 t =>
            cases t with
            | nil => exact absurd hylen (by simp)
            | cons e1 t2 =>
              have he0 : e0 = '2' := by simpa using hy0
              have he1 : e1 = '0' := by simpa using hy1
              subst he0
              subst he1
              simp [startsWithL]
    · -- the slice occurs inside d
      have hdt : y = (d.drop ab.1).take (ab.2 - ab.1) := by
        rw [hyeq]
        unfold sliceL
        rw [List.drop_take]
      rw [hdt]
      exact containsL_of_startsWith_drop _ ab.1 d (startsWithL_take _ _)

end Leg

namespace Leg

def c8Vig : Vigencia :=
  { data := "17/09/2025", contexto := "Início da vigência",
    tipo := "inicio_vigencia", relevancia := "alta" }

def c8TextL : List Char := "vigente em 17-09-2025".data

/-- C8: after validation, every surviving effective-date entry whose value
is a calendar date occurs in the source text up to `/`-vs-`-` separator
normalization, or at minimum its bare four-digit year (a "20xx" substring
of the value) occurs; duration entries (value containing "ano") pass
through exempt; calendar entries satisfying neither condition are removed.
Stated for date values free of regex metacharacters, on which the
dynamically built pattern is a literal matcher. -/
theorem effective_dates_grounding (vigs : List Vigencia) (textL : List Char)
    (hp : ∀ v ∈ vigs, plainData v.data.data = true) :
    (∀ v ∈ validateVigencias vigs textL,
       containsL (lowerL v.data.data) "ano".data = true
       ∨ flexContains textL v.data.data = true
       ∨ (∃ y, yearOf v.data.data = some y ∧ containsL textL y = true
            ∧ y.length = 4 ∧ startsWithL ['2', '0'] y = true))
    ∧ (∀ v ∈ vigs,
        containsL (lowerL v.data.data) "ano".data = false →
        flexContains textL v.data.data = false →
        (∀ y, yearOf v.data.data = some y → containsL textL y = false) →
        v ∉ validateVigencias vigs textL) := by
  constructor
  · intro v hv
    have hvin : v ∈ vigs := (List.mem_filter.mp hv).1
    have hkeep : keepVig textL v = true := (List.mem_filter.mp hv).2
    have hpd := hp v hvin
    by_cases hano : containsL (lowerL v.data.data) "ano".data = true
    · exact Or.inl hano
    · right
      have hkeep' : (if reSearch (compileData v.data.data) textL ||
            reSearch (escapedWbRE v.data.data) textL then true
          else match yearOf v.data.data with
            | some y => containsL textL y
            | none => false) = true := by
        have : keepVig textL v =
            (if containsL (lowerL v.data.data) "ano".data then true
             else if reSearch (compileData v.data.data) textL ||
                 reSearch (escapedWbRE v.data.data) textL then true
             else match yearOf v.data.data with
               | some y => containsL textL y
               | none => false) := rfl
        rw [this, if_neg hano] at hkeep
        exact hkeep
      by_cases hsearch : (reSearch (compileData v.data.data) textL ||
          reSearch (escapedWbRE v.data.data) textL) = true
      · left
        have hsor : reSearch (compileData v.data.data) textL = true ∨
            reSearch (escapedWbRE v.data.data) textL = true := by
          simpa [Bool.or_eq_true] using hsearch
        rcases hsor with h1 | h2
        · rw [← reSearch_compileData v.data.data textL hpd]
          exact h1
        · exact reSearch_escapedWb_imp_flex v.data.data textL h2
      · right
        rw [if_neg hsearch] at hkeep'
        cases hyo : yearOf v.data.data with
        | none =>
          rw [hyo] at hkeep'
          dsimp only at hkeep'
          exact Bool.noConfusion hkeep'
        | some y =>
          rw [hyo] at hkeep'
          dsimp only at hkeep'
          have hspec := yearOf_spec v.data.data y hyo
          exact ⟨y, rfl, hkeep', hspec.1, hspec.2.1⟩
  · intro v hvin hano hflex hyear hmem
    have hvp := hp v hvin
    have hkeep : keepVig textL v = true := (List.mem_filter.mp hmem).2
    have hform : keepVig textL v =
        (if containsL (lowerL v.data.data) "ano".data then true
         else if reSearch (compileData v.data.data) textL ||
             reSearch (escapedWbRE v.data.data) textL then true
         else match yearOf v.data.data with
           | some y => containsL textL y
           | none => false) := rfl
    rw [hform, if_neg (by rw [hano]; exact Bool.noConfusion)] at hkeep
    have hcsearch : reSearch (compileData v.data.data) textL = false := by
      rw [reSearch_compileData v.data.data textL hvp]
      exact hflex
    have hesearch : reSearch (escapedWbRE v.data.data) textL = false := by
      by_cases he : reSearch (escapedWbRE v.data.data) textL = true
      · exact absurd (reSearch_escapedWb_imp_flex v.data.data textL he)
          (by rw [hflex]; exact Bool.noConfusion)
      · exact Bool.not_eq_true _ ▸ Bool.eq_false_iff.mpr he
    rw [if_neg (by rw [hcsearch, hesearch]; exact Bool.noConfusion)] at hkeep
    cases hyo : yearOf v.data.data with
    | none =>
      rw [hyo] at hkeep
      dsimp only at hkeep
      exact Bool.noConfusion hkeep
    | some y =>
      rw [hyo] at hkeep
      dsimp only at hkeep
      rw [hyear y hyo] at hkeep
      exact Bool.noConfusion hkeep

/-- C8 witness: a calendar entry "17/09/2025" survives against a text
containing "17-09-2025", and the grounding disjunction holds for it. -/
theorem effective_dates_grounding_witness :
    containsL (lowerL c8Vig.data.data) "ano".data = true
    ∨ flexContains c8TextL c8Vig.data.data = true
    ∨ (∃ y, yearOf c8Vig.data.data = some y ∧ containsL c8TextL y = true
         ∧ y.length = 4 ∧ startsWithL ['2', '0'] y = true) :=
  (effective_dates_grounding [c8Vig] c8TextL
      (by intro v hv; rw [List.mem_singleton.mp hv]; decide)).1 c8Vig
    (by decide)

end Leg

namespace Leg

/-- C9 counterexample: a completed run need not carry a written
`validation_status` at all — when `_get_original_text` finds no text,
`validate` returns the state untouched with no status written
(validation_agent.py lines 100-102), even though records were extracted,
while the pipeline graph still runs through to the assembly stage. -/
theorem validation_status_not_written_on_empty_text :
    (validateRun [] "" [xyzRec] []).status = none
    ∧ (validateRun [] "" [xyzRec] []).aliquotas = [xyzRec]
    ∧ (pipelineTrace false).getLast? = some Node.assemble := by
  refine ⟨rfl, rfl, by decide⟩

end Leg
